import Mathlib

/-!
Shallow embedding of the core pipeline of `src/main.go` (go_ai_web_scraper):
the chunker `splitDOMContent`, the model-invocation orchestration
`parseWithGenAI`, and the output formatter `printFormatted`.

Documents and display text are modelled as `List Char` (Go slices a string
by raw index units; we use one list element per unit).  Go loops whose
termination depends on run-time values are embedded with explicit fuel,
returning `none` when the fuel is exhausted — this faithfully represents
the source's unguarded non-termination (e.g. `maxLength = 0`).
-/

namespace Scraper

/-- Embeds the loop body of `splitDOMContent` (src/main.go lines 57-67):
`for i := 0; i < len(domContent); i += maxLength` slicing
`domContent[i:min(i+maxLength, len)]`.  Iteration `i` is represented by
recursing on the not-yet-consumed suffix; `fuel` bounds the number of
iterations, `none` meaning the loop has not finished within the fuel
(as happens for `maxLength = 0` on a non-empty document). -/
def splitLoop : Nat → List Char → Nat → Option (List (List Char))
  | _, [], _ => some []
  | 0, _ :: _, _ => none
  | fuel + 1, c :: cs, maxLength =>
    match splitLoop fuel ((c :: cs).drop maxLength) maxLength with
    | some rest => some ((c :: cs).take maxLength :: rest)
    | none => none

/-- `splitDOMContent` of src/main.go lines 57-67.  For `maxLength ≥ 1` the
loop performs at most `length` iterations, so fuel `length domContent`
suffices (proved below); the `getD` default is never reached then. -/
def splitDOMContent (domContent : List Char) (maxLength : Nat) : List (List Char) :=
  (splitLoop domContent.length domContent maxLength).getD []

/-- Embeds the loop of `printFormatted` (src/main.go lines 118-130):
`for len(text) > 0` emitting `text[:lineWidth] + "\n"` while the text is
longer than the width, else the whole remaining text plus `"\n"`. -/
def printLoop : Nat → List Char → Nat → Option (List Char)
  | _, [], _ => some []
  | 0, _ :: _, _ => none
  | fuel + 1, c :: cs, lineWidth =>
    if lineWidth < (c :: cs).length then
      match printLoop fuel ((c :: cs).drop lineWidth) lineWidth with
      | some rest => some (((c :: cs).take lineWidth ++ ['\n']) ++ rest)
      | none => none
    else
      some ((c :: cs) ++ ['\n'])

/-- `printFormatted` of src/main.go lines 118-130.  For `lineWidth ≥ 1`
fuel `length text` suffices (proved below). -/
def printFormatted (text : List Char) (lineWidth : Nat) : List Char :=
  (printLoop text.length text lineWidth).getD []

/-- The local `min` helper of src/main.go lines 132-137. -/
def goMin (a b : Nat) : Nat := if a < b then a else b

theorem goMin_eq_min (a b : Nat) : goMin a b = min a b := by
  unfold goMin; split <;> omega

/-! ### Lemmas about `splitLoop` -/

theorem splitLoop_nil (fuel maxLength : Nat) : splitLoop fuel [] maxLength = some [] := by
  cases fuel <;> rfl

/-- Whenever the split loop finishes, the chunks concatenate back to the
input (no hypothesis on `maxLength` is needed: for `maxLength = 0` the
loop never finishes on non-empty input). -/
theorem splitLoop_flatten : ∀ (fuel : Nat) (d : List Char) (L : Nat) (cs : List (List Char)),
    splitLoop fuel d L = some cs → cs.flatten = d := by
  intro fuel
  induction fuel with
  | zero =>
    intro d L cs h
    cases d with
    | nil => simp [splitLoop] at h; subst h; simp
    | cons c cs' => simp [splitLoop] at h
  | succ f ih =>
    intro d L cs h
    cases d with
    | nil => simp [splitLoop] at h; subst h; simp
    | cons c d' =>
      rw [splitLoop] at h
      cases hrec : splitLoop f ((c :: d').drop L) L with
      | none => rw [hrec] at h; simp at h
      | some rest =>
        rw [hrec] at h
        simp at h
        subst h
        simp only [List.flatten_cons]
        rw [ih _ _ _ hrec]
        exact List.take_append_drop L (c :: d')

/-- With a positive `maxLength`, fuel equal to the document length is
enough for the split loop to finish. -/
theorem splitLoop_isSome : ∀ (fuel : Nat) (d : List Char) (L : Nat), 1 ≤ L →
    d.length ≤ fuel → (splitLoop fuel d L).isSome := by
  intro fuel
  induction fuel with
  | zero =>
    intro d L hL hlen
    have : d = [] := List.eq_nil_of_length_eq_zero (Nat.le_zero.mp hlen)
    subst this; simp [splitLoop]
  | succ f ih =>
    intro d L hL hlen
    cases d with
    | nil => simp [splitLoop]
    | cons c d' =>
      rw [splitLoop]
      have hdrop : ((c :: d').drop L).length ≤ f := by
        simp only [List.length_drop, List.length_cons]
        simp only [List.length_cons] at hlen
        omega
      have := ih ((c :: d').drop L) L hL hdrop
      cases hrec : splitLoop f ((c :: d').drop L) L with
      | none => rw [hrec] at this; simp at this
      | some rest => simp

/-- Chunk count of the split loop: `(length - 1) / L + 1` for non-empty
input (equivalently `ceil(length / L)`). -/
theorem splitLoop_length : ∀ (fuel : Nat) (d : List Char) (L : Nat) (cs : List (List Char)),
    1 ≤ L → d ≠ [] → splitLoop fuel d L = some cs →
    cs.length = (d.length - 1) / L + 1 := by
  intro fuel
  induction fuel with
  | zero =>
    intro d L cs hL hne h
    cases d with
    | nil => exact absurd rfl hne
    | cons c d' => simp [splitLoop] at h
  | succ f ih =>
    intro d L cs hL hne h
    cases d with
    | nil => exact absurd rfl hne
    | cons c d' =>
      rw [splitLoop] at h
      cases hrec : splitLoop f ((c :: d').drop L) L with
      | none => rw [hrec] at h; simp at h
      | some rest =>
        rw [hrec] at h
        simp at h
        subst h
        by_cases hsmall : (c :: d').length ≤ L
        · have hdropnil : (c :: d').drop L = [] := List.drop_of_length_le hsmall
          rw [hdropnil, splitLoop_nil] at hrec
          simp at hrec
          subst hrec
          have hlt : d'.length < L := by
            simp only [List.length_cons] at hsmall; omega
          simp [Nat.div_eq_of_lt hlt]
        · push_neg at hsmall
          simp only [List.length_cons] at hsmall
          have hdropne : (c :: d').drop L ≠ [] := by
            intro hnil
            have := congrArg List.length hnil
            simp only [List.length_drop, List.length_cons, List.length_nil] at this
            omega
          have hrest := ih _ _ _ hL hdropne hrec
          simp only [List.length_cons, List.length_drop] at hrest ⊢
          have h2 : (d'.length + 1 - L - 1 + L) / L = (d'.length + 1 - L - 1) / L + 1 :=
            Nat.add_div_right _ (by omega)
          have h3 : d'.length + 1 - L - 1 + L = d'.length + 1 - 1 := by omega
          rw [h3] at h2
          omega

/-- Every chunk the split loop produces is the `L`-bounded slice starting
at offset `i * L`, i.e. it covers `[i*L, min((i+1)*L, length))`. -/
theorem splitLoop_get : ∀ (fuel : Nat) (d : List Char) (L : Nat) (cs : List (List Char)),
    splitLoop fuel d L = some cs →
    ∀ (i : Nat) (h : i < cs.length), cs.get ⟨i, h⟩ = (d.drop (i * L)).take L := by
  intro fuel
  induction fuel with
  | zero =>
    intro d L cs h i hi
    cases d with
    | nil =>
      simp [splitLoop] at h
      subst h
      simp at hi
    | cons c d' => simp [splitLoop] at h
  | succ f ih =>
    intro d L cs h i hi
    cases d with
    | nil =>
      simp [splitLoop] at h
      subst h
      simp at hi
    | cons c d' =>
      rw [splitLoop] at h
      cases hrec : splitLoop f ((c :: d').drop L) L with
      | none => rw [hrec] at h; simp at h
      | some rest =>
        rw [hrec] at h
        simp at h
        subst h
        cases i with
        | zero => simp
        | succ i' =>
          have hi' : i' < rest.length := by simpa using hi
          have := ih _ _ _ hrec i' hi'
          simp only [List.get_cons_succ]
          rw [this, List.drop_drop]
          congr 1
          ring_nf

/-! ### Lemmas about `printLoop` -/

/-- The formatter loop emits exactly the chunks of the split loop, each
terminated by a newline character. -/
theorem printLoop_eq_splitLoop : ∀ (fuel : Nat) (t : List Char) (w : Nat),
    printLoop fuel t w
      = (splitLoop fuel t w).map (fun cs => (cs.map (fun l => l ++ ['\n'])).flatten) := by
  intro fuel
  induction fuel with
  | zero =>
    intro t w
    cases t with
    | nil => simp [printLoop, splitLoop]
    | cons c t' => simp [printLoop, splitLoop]
  | succ f ih =>
    intro t w
    cases t with
    | nil => simp [printLoop, splitLoop]
    | cons c t' =>
      rw [printLoop, splitLoop]
      by_cases hbig : w < (c :: t').length
      · rw [if_pos hbig, ih]
        cases hrec : splitLoop f ((c :: t').drop w) w with
        | none => simp
        | some rest => simp
      · rw [if_neg hbig]
        push_neg at hbig
        have hdropnil : (c :: t').drop w = [] := List.drop_of_length_le hbig
        have htake : (c :: t').take w = c :: t' := List.take_of_length_le hbig
        rw [hdropnil, splitLoop_nil]
        simp [htake]

/-- With a positive width, fuel equal to the text length is enough for the
formatter loop to finish. -/
theorem printLoop_isSome (t : List Char) (w : Nat) (hw : 1 ≤ w) :
    (printLoop t.length t w).isSome := by
  rw [printLoop_eq_splitLoop]
  have := splitLoop_isSome t.length t w hw (Nat.le_refl _)
  cases h : splitLoop t.length t w with
  | none => rw [h] at this; simp at this
  | some cs => simp

/-- Chunks produced by the split loop are never longer than `L`. -/
theorem splitLoop_chunk_le : ∀ (fuel : Nat) (d : List Char) (L : Nat) (cs : List (List Char)),
    splitLoop fuel d L = some cs → ∀ l ∈ cs, l.length ≤ L := by
  intro fuel d L cs h l hl
  obtain ⟨i, hi⟩ := List.get_of_mem hl
  rw [← hi, splitLoop_get fuel d L cs h i.1 i.2]
  simp [List.length_take]

/-! ### Embedding of `parseWithGenAI` (src/main.go lines 69-116)

The remote model is an external collaborator; we determinize it as an
oracle in the environment: `generateContent i instr chunk` is the outcome
of the `i`-th call of `model.GenerateContent` (0-based), which the Go code
performs with arguments `(parseDescription, domChunks[i])`.  A part of a
response is modelled by its text (both Go branches, `fmt.Stringer` and
`fmt.Sprint`, produce the part's string rendering). -/

/-- `genai` response candidate: `Content` may be nil (`none`); otherwise it
carries the ordered list of part texts. -/
structure Candidate where
  content : Option (List String)
deriving DecidableEq

/-- A raw model response: an ordered list of candidates. -/
structure GenResponse where
  candidates : List Candidate
deriving DecidableEq

instance : Inhabited GenResponse := ⟨⟨[]⟩⟩

/-- The per-chunk extraction of src/main.go lines 99-111: for each
candidate with non-nil content, each part's text is written followed by a
newline. -/
def extractText (resp : GenResponse) : String :=
  String.join (resp.candidates.map (fun cand =>
    match cand.content with
    | none => ""
    | some parts => String.join (parts.map (fun p => p ++ "\n"))))

/-- Errors `parseWithGenAI` can return, one constructor per `fmt.Errorf`
site (lines 72, 78, 96).  `chunkFailed` carries the printed 1-based chunk
index and wraps the transport cause. -/
inductive ParseErr where
  | keyNotSet : ParseErr
  | clientFailed (cause : String) : ParseErr
  | chunkFailed (index : Nat) (cause : String) : ParseErr
deriving DecidableEq

/-- The ambient configuration and external collaborators of
`parseWithGenAI`: the `GEMINI_API_KEY` environment variable (`""` when
unset, as `os.Getenv` yields), the possible `genai.NewClient` failure, and
the model oracle. -/
structure GenAIEnv where
  geminiApiKey : String
  newClientError : Option String
  generateContent : Nat → String → String → Except String GenResponse

/-- The loop of src/main.go lines 88-113, processing chunk `i` onwards.
Returns the trace of chunks actually submitted to the model (in call
order) together with either the collected per-chunk results or the first
error, which aborts the loop. -/
def invokeChunks (env : GenAIEnv) (instr : String) :
    List String → Nat → List String × Except ParseErr (List String)
  | [], _ => ([], Except.ok [])
  | c :: cs, i =>
    match env.generateContent i instr c with
    | Except.error e => ([c], Except.error (ParseErr.chunkFailed (i + 1) e))
    | Except.ok resp =>
      let r := invokeChunks env instr cs (i + 1)
      (c :: r.1, r.2.map (fun results => extractText resp :: results))

/-- `parseWithGenAI` of src/main.go lines 69-116.  The value is the trace
of submitted chunks (the observable calls, a side effect in Go) paired
with Go's `(string, error)` return: the aggregate string and the error
(`none` on success).  All error paths return `""` as the string, as the
source does. -/
def parseWithGenAI (env : GenAIEnv) (domChunks : List String) (parseDescription : String) :
    List String × String × Option ParseErr :=
  if env.geminiApiKey = "" then ([], "", some ParseErr.keyNotSet)
  else
    match env.newClientError with
    | some e => ([], "", some (ParseErr.clientFailed e))
    | none =>
      let maxChunks := 16
      let chunkCount := goMin domChunks.length maxChunks
      let r := invokeChunks env parseDescription (domChunks.take chunkCount) 0
      match r.2 with
      | Except.ok results => (r.1, String.intercalate "\n" results, none)
      | Except.error e => (r.1, "", some e)

/-- Reference list of per-chunk results when every call from index `i` on
succeeds with responses `r`. -/
def okResults (r : Nat → GenResponse) : Nat → List String → List String
  | _, [] => []
  | i, _ :: cs => extractText (r i) :: okResults r (i + 1) cs

/-! ### Lemmas about `invokeChunks` -/

theorem invokeChunks_ok (env : GenAIEnv) (instr : String) (r : Nat → GenResponse) :
    ∀ (cs : List String) (i : Nat),
    (∀ j, j < cs.length → env.generateContent (i + j) instr (cs.getD j "") = Except.ok (r (i + j))) →
    invokeChunks env instr cs i = (cs, Except.ok (okResults r i cs)) := by
  intro cs
  induction cs with
  | nil => intro i _; rfl
  | cons c cs' ih =>
    intro i hok
    have h0 := hok 0 (by simp)
    simp only [Nat.add_zero, List.getD_cons_zero] at h0
    rw [invokeChunks, h0]
    have hrec := ih (i + 1) (by
      intro j hj
      have := hok (j + 1) (by simpa using Nat.succ_lt_succ hj)
      simpa [Nat.add_assoc, Nat.add_comm 1 j] using this)
    rw [hrec]
    rfl

theorem invokeChunks_err (env : GenAIEnv) (instr : String) :
    ∀ (cs : List String) (i j : Nat) (e : String),
    j < cs.length →
    (∀ k, k < j → ∃ resp, env.generateContent (i + k) instr (cs.getD k "") = Except.ok resp) →
    env.generateContent (i + j) instr (cs.getD j "") = Except.error e →
    invokeChunks env instr cs i
      = (cs.take (j + 1), Except.error (ParseErr.chunkFailed (i + j + 1) e)) := by
  intro cs
  induction cs with
  | nil => intro i j e hj _ _; simp at hj
  | cons c cs' ih =>
    intro i j e hj hbefore hfail
    cases j with
    | zero =>
      simp only [Nat.add_zero, List.getD_cons_zero] at hfail
      rw [invokeChunks, hfail]
      simp
    | succ j' =>
      obtain ⟨resp0, h0⟩ := hbefore 0 (Nat.succ_pos j')
      simp only [Nat.add_zero, List.getD_cons_zero] at h0
      rw [invokeChunks, h0]
      have hrec := ih (i + 1) j' e (by simpa using Nat.lt_of_succ_lt_succ hj)
        (by
          intro k hk
          obtain ⟨resp, hresp⟩ := hbefore (k + 1) (Nat.succ_lt_succ hk)
          exact ⟨resp, by simpa [Nat.add_assoc, Nat.add_comm 1 k] using hresp⟩)
        (by simpa [Nat.add_assoc, Nat.add_comm 1 j'] using hfail)
      rw [hrec]
      simp only [List.take_succ_cons, Except.map]
      have harith : i + 1 + j' + 1 = i + (j' + 1) + 1 := by omega
      rw [harith]

/-- `getD` below the taken length sees through `List.take`. -/
theorem getD_take_of_lt {l : List String} {n j : Nat} (h : j < n) (d : String) :
    (l.take n).getD j d = l.getD j d := by
  simp [List.getD, List.getElem?_take_of_lt h]

/-- Indexing the reference result list: position `j` holds the extracted
text of response `r (i + j)`. -/
theorem okResults_getD (r : Nat → GenResponse) :
    ∀ (cs : List String) (i j : Nat), j < cs.length →
    (okResults r i cs).getD j "" = extractText (r (i + j)) := by
  intro cs
  induction cs with
  | nil => intro i j hj; simp at hj
  | cons c cs' ih =>
    intro i j hj
    cases j with
    | zero => simp [okResults]
    | succ j' =>
      have harith : i + (j' + 1) = (i + 1) + j' := by omega
      rw [harith]
      simp only [okResults, List.getD_cons_succ]
      exact ih (i + 1) j' (by simp only [List.length_cons] at hj; omega)

/-- If all candidates of a response have nil or empty content, the
extracted text is empty. -/
theorem extractText_eq_empty (resp : GenResponse)
    (h : ∀ c ∈ resp.candidates, c.content.getD [] = []) : extractText resp = "" := by
  unfold extractText
  obtain ⟨cands⟩ := resp
  induction cands with
  | nil => rfl
  | cons c cs ih =>
    have hc := h c (by simp)
    have hcs := ih (by intro x hx; exact h x (by simp [hx]))
    simp only [List.map_cons] at *
    rw [String.join]
    rw [String.join] at hcs
    simp only [List.foldl_cons]
    cases hcont : c.content with
    | none =>
      simpa using hcs
    | some parts =>
      rw [hcont] at hc
      simp at hc
      subst hc
      simpa using hcs

/-- With a positive `maxLength`, the fuelled loop finishes and computes
exactly `splitDOMContent`. -/
theorem splitLoop_eq_splitDOMContent (D : List Char) (L : Nat) (hL : 1 ≤ L) :
    splitLoop D.length D L = some (splitDOMContent D L) := by
  unfold splitDOMContent
  have hs := splitLoop_isSome D.length D L hL (Nat.le_refl _)
  obtain ⟨cs, h⟩ := Option.isSome_iff_exists.mp hs
  rw [h]
  rfl

/-! ### Concrete environments used by witnesses and counterexamples -/

/-- An environment whose credential is unset (`os.Getenv` yields `""`). -/
def envNoKey : GenAIEnv :=
  { geminiApiKey := "", newClientError := none,
    generateContent := fun _ _ _ => Except.ok ⟨[]⟩ }

/-- An environment where every model call succeeds with an empty response. -/
def envOK : GenAIEnv :=
  { geminiApiKey := "key", newClientError := none,
    generateContent := fun _ _ _ => Except.ok ⟨[]⟩ }

/-- An environment whose second call (index 1) fails with transport error
`"boom"` and all other calls succeed. -/
def envFail2 : GenAIEnv :=
  { geminiApiKey := "key", newClientError := none,
    generateContent := fun i _ _ =>
      if i = 1 then Except.error "boom" else Except.ok ⟨[]⟩ }

/-- Responses whose single candidate carries one part with no text parts
at all: one nil content and one empty part list. -/
def respEmptyFun : Nat → GenResponse := fun _ => ⟨[⟨none⟩, ⟨some []⟩]⟩

/-- An environment whose responses carry no textual parts. -/
def envEmptyResp : GenAIEnv :=
  { geminiApiKey := "key", newClientError := none,
    generateContent := fun i _ _ => Except.ok (respEmptyFun i) }

/-- Response for call `i`: exactly one candidate with exactly one text
part `"OK-(i+1)"`. -/
def respOK1 : Nat → GenResponse :=
  fun i => ⟨[⟨some [(["OK-1", "OK-2", "OK-3"] : List String).getD i ""]⟩]⟩

/-- The environment of the spec's three-chunk scenario: the model response
for chunk `i` is exactly one text part `"OK-i"` (1-based). -/
def envC2 : GenAIEnv :=
  { geminiApiKey := "key", newClientError := none,
    generateContent := fun i _ _ => Except.ok (respOK1 i) }

/-! ### The claims -/

/-- Claim C1: for every document `D` and every `maxLength ≥ 1`,
concatenating the chunks returned by `splitDOMContent` in order reproduces
`D` exactly (no data loss, no overlap, no reordering). -/
theorem claim_C1 (D : List Char) (L : Nat) (hL : 1 ≤ L) :
    (splitDOMContent D L).flatten = D :=
  splitLoop_flatten D.length D L _ (splitLoop_eq_splitDOMContent D L hL)

/-- Witness for C1 at `D = "abc"`, `L = 2`. -/
theorem claim_C1_witness :
    (splitDOMContent ['a', 'b', 'c'] 2).flatten = ['a', 'b', 'c'] :=
  claim_C1 ['a', 'b', 'c'] 2 (by decide)

/-- Claim C6: for `maxLength ≥ 1`, the empty document yields an empty
chunk list; a non-empty document yields exactly `⌈len/L⌉` chunks; and
chunk `i` is the slice covering offsets `[i*L, min((i+1)*L, len))`. -/
theorem claim_C6 (D : List Char) (L : Nat) (hL : 1 ≤ L) :
    (D = [] → splitDOMContent D L = []) ∧
    (D ≠ [] → (splitDOMContent D L).length = (D.length + L - 1) / L) ∧
    (∀ (i : Nat) (hi : i < (splitDOMContent D L).length),
      (splitDOMContent D L).get ⟨i, hi⟩ = (D.drop (i * L)).take L) := by
  have h := splitLoop_eq_splitDOMContent D L hL
  refine ⟨?_, ?_, ?_⟩
  · intro hD; subst hD; rfl
  · intro hne
    rw [splitLoop_length D.length D L _ hL hne h]
    have hpos : 0 < D.length := List.length_pos.mpr hne
    have he : D.length + L - 1 = (D.length - 1) + L := by omega
    rw [he, Nat.add_div_right _ (by omega)]
  · intro i hi
    exact splitLoop_get D.length D L _ h i hi

/-- Witness for C6 at `D = "abcde"`, `L = 2`: three chunks. -/
theorem claim_C6_witness :
    (splitDOMContent ['a', 'b', 'c', 'd', 'e'] 2).length
      = ((['a', 'b', 'c', 'd', 'e'] : List Char).length + 2 - 1) / 2 :=
  (claim_C6 ['a', 'b', 'c', 'd', 'e'] 2 (by decide)).2.1 (by decide)

/-- Claim C9: under the precondition `maxLength ≥ 1` the chunking loop
terminates within `length` iterations, returning the finite chunk list
`splitDOMContent`; and the source has no guard rejecting a non-positive
`maxLength`: for `maxLength = 0` on a non-empty document the loop never
finishes, whatever the fuel. -/
theorem claim_C9 :
    (∀ (D : List Char) (L : Nat), 1 ≤ L →
      splitLoop D.length D L = some (splitDOMContent D L)) ∧
    (∀ (fuel : Nat) (c : Char) (d : List Char), splitLoop fuel (c :: d) 0 = none) := by
  constructor
  · exact splitLoop_eq_splitDOMContent
  · intro fuel
    induction fuel with
    | zero => intro c d; rfl
    | succ f ih =>
      intro c d
      rw [splitLoop]
      simp [ih c d]

/-- Witness for C9 at `D = "ab"`, `L = 1`. -/
theorem claim_C9_witness :
    splitLoop (['a', 'b'] : List Char).length ['a', 'b'] 1
      = some (splitDOMContent ['a', 'b'] 1) :=
  claim_C9.1 ['a', 'b'] 1 (by decide)

/-- Claim C7: for every text and `width ≥ 1`, `printFormatted` emits lines
each of length at most `width`, every line (the last included) terminated
by the same `'\n'`, and stripping the terminators and concatenating the
lines reproduces the text exactly. -/
theorem claim_C7 (text : List Char) (w : Nat) (hw : 1 ≤ w) :
    ∃ lines : List (List Char),
      printFormatted text w = (lines.map (fun l => l ++ ['\n'])).flatten ∧
      (∀ l ∈ lines, l.length ≤ w) ∧
      lines.flatten = text := by
  refine ⟨splitDOMContent text w, ?_, ?_, ?_⟩
  · unfold printFormatted
    rw [printLoop_eq_splitLoop, splitLoop_eq_splitDOMContent text w hw]
    rfl
  · exact splitLoop_chunk_le text.length text w _ (splitLoop_eq_splitDOMContent text w hw)
  · exact splitLoop_flatten text.length text w _ (splitLoop_eq_splitDOMContent text w hw)

/-- Witness for C7 at `text = "hi"`, `width = 80`. -/
theorem claim_C7_witness :
    ∃ lines : List (List Char),
      printFormatted ['h', 'i'] 80 = (lines.map (fun l => l ++ ['\n'])).flatten ∧
      (∀ l ∈ lines, l.length ≤ 80) ∧
      lines.flatten = ['h', 'i'] :=
  claim_C7 ['h', 'i'] 80 (by decide)

/-- Claim C10: the empty text emits zero lines, so `printFormatted` on it
returns the empty output, containing no line terminator at all. -/
theorem claim_C10 (w : Nat) : printFormatted [] w = [] := rfl

/-- Claim C5: when the `GEMINI_API_KEY` credential is absent (empty), the
run fails with the configuration error before any model invocation: the
call trace is empty and the error is `keyNotSet`, distinct from client and
per-chunk transport errors. -/
theorem claim_C5 (env : GenAIEnv) (domChunks : List String) (instr : String)
    (h : env.geminiApiKey = "") :
    parseWithGenAI env domChunks instr = ([], "", some ParseErr.keyNotSet) := by
  unfold parseWithGenAI
  rw [if_pos h]

/-- Witness for C5 at a concrete key-less environment. -/
theorem claim_C5_witness :
    parseWithGenAI envNoKey ["chunk"] "instr" = ([], "", some ParseErr.keyNotSet) :=
  claim_C5 envNoKey ["chunk"] "instr" rfl

/-- Claim C3: with credential and client in place and all scheduled calls
succeeding, `parseWithGenAI` submits exactly the first
`min(len(chunks), 16)` chunks, in order; the rest are silently dropped and
no error is produced. -/
theorem claim_C3 (env : GenAIEnv) (domChunks : List String) (instr : String)
    (r : Nat → GenResponse)
    (hkey : ¬ env.geminiApiKey = "") (hclient : env.newClientError = none)
    (hok : ∀ i, i < min domChunks.length 16 →
      env.generateContent i instr (domChunks.getD i "") = Except.ok (r i)) :
    (parseWithGenAI env domChunks instr).1 = domChunks.take (min domChunks.length 16) ∧
    (parseWithGenAI env domChunks instr).1.length = min domChunks.length 16 ∧
    (parseWithGenAI env domChunks instr).2.2 = none := by
  have hok' : ∀ j, j < (domChunks.take (goMin domChunks.length 16)).length →
      env.generateContent (0 + j) instr
        ((domChunks.take (goMin domChunks.length 16)).getD j "") = Except.ok (r (0 + j)) := by
    intro j hj
    simp only [List.length_take] at hj
    have hjn : j < goMin domChunks.length 16 := lt_of_lt_of_le hj (min_le_left _ _)
    rw [Nat.zero_add, getD_take_of_lt hjn]
    exact hok j (by rwa [goMin_eq_min] at hjn)
  have hinv := invokeChunks_ok env instr r (domChunks.take (goMin domChunks.length 16)) 0 hok'
  simp only [parseWithGenAI, if_neg hkey, hclient]
  rw [hinv]
  refine ⟨by rw [goMin_eq_min], ?_, rfl⟩
  simp only [List.length_take, goMin_eq_min]
  omega

/-- Witness for C3: with 17 chunks exactly the first 16 are submitted. -/
theorem claim_C3_witness :
    (parseWithGenAI envOK (List.replicate 17 "x") "instr").1
      = (List.replicate 17 "x").take (min (List.replicate 17 "x").length 16) ∧
    (parseWithGenAI envOK (List.replicate 17 "x") "instr").1.length
      = min (List.replicate 17 "x").length 16 ∧
    (parseWithGenAI envOK (List.replicate 17 "x") "instr").2.2 = none :=
  claim_C3 envOK (List.replicate 17 "x") "instr" (fun _ => ⟨[]⟩) (by decide) rfl
    (fun _ _ => rfl)

/-- Claim C4: if chunk `j` (0-based) of the batch is the first whose call
fails, the run aborts at once: only chunks `0..j` were submitted, the
error carries the 1-based index `j + 1` and wraps the transport cause, and
the returned string is empty (no partial aggregate). -/
theorem claim_C4 (env : GenAIEnv) (domChunks : List String) (instr : String)
    (j : Nat) (e : String)
    (hkey : ¬ env.geminiApiKey = "") (hclient : env.newClientError = none)
    (hj : j < min domChunks.length 16)
    (hbefore : ∀ k, k < j →
      ∃ resp, env.generateContent k instr (domChunks.getD k "") = Except.ok resp)
    (hfail : env.generateContent j instr (domChunks.getD j "") = Except.error e) :
    parseWithGenAI env domChunks instr
      = (domChunks.take (j + 1), "", some (ParseErr.chunkFailed (j + 1) e)) := by
  have hjg : j < goMin domChunks.length 16 := by rwa [goMin_eq_min]
  have hinv := invokeChunks_err env instr (domChunks.take (goMin domChunks.length 16)) 0 j e
    (by simp only [List.length_take]; rw [goMin_eq_min]; omega)
    (by
      intro k hk
      obtain ⟨resp, hresp⟩ := hbefore k hk
      refine ⟨resp, ?_⟩
      rw [Nat.zero_add, getD_take_of_lt (lt_trans hk hjg)]
      exact hresp)
    (by rw [Nat.zero_add, getD_take_of_lt hjg]; exact hfail)
  have htr : (domChunks.take (goMin domChunks.length 16)).take (j + 1)
      = domChunks.take (j + 1) := by
    rw [List.take_take]
    congr 1
    rw [goMin_eq_min]
    omega
  simp only [parseWithGenAI, if_neg hkey, hclient]
  rw [hinv, htr]
  simp

/-- Witness for C4: a batch of 3 chunks whose second invocation fails:
the error identifies chunk index 2, the third chunk is never invoked and
the string result is empty. -/
theorem claim_C4_witness :
    parseWithGenAI envFail2 ["c1", "c2", "c3"] "instr"
      = ((["c1", "c2", "c3"] : List String).take 2, "",
          some (ParseErr.chunkFailed 2 "boom")) :=
  claim_C4 envFail2 ["c1", "c2", "c3"] "instr" 1 "boom" (by decide) rfl (by decide)
    (fun k hk => by
      have hk0 : k = 0 := by omega
      subst hk0
      exact ⟨⟨[]⟩, rfl⟩)
    rfl

/-- Claim C8: a chunk whose call succeeds but whose response has no
candidates or no textual parts contributes the empty string to the
aggregate and raises no error. -/
theorem claim_C8 (env : GenAIEnv) (domChunks : List String) (instr : String)
    (r : Nat → GenResponse) (j : Nat)
    (hkey : ¬ env.geminiApiKey = "") (hclient : env.newClientError = none)
    (hok : ∀ i, i < min domChunks.length 16 →
      env.generateContent i instr (domChunks.getD i "") = Except.ok (r i))
    (hj : j < min domChunks.length 16)
    (hempty : ∀ c ∈ (r j).candidates, c.content.getD [] = []) :
    (parseWithGenAI env domChunks instr).2.2 = none ∧
    (invokeChunks env instr (domChunks.take (goMin domChunks.length 16)) 0).2
      = Except.ok (okResults r 0 (domChunks.take (goMin domChunks.length 16))) ∧
    (okResults r 0 (domChunks.take (goMin domChunks.length 16))).getD j "" = "" := by
  have hok' : ∀ k, k < (domChunks.take (goMin domChunks.length 16)).length →
      env.generateContent (0 + k) instr
        ((domChunks.take (goMin domChunks.length 16)).getD k "") = Except.ok (r (0 + k)) := by
    intro k hk
    simp only [List.length_take] at hk
    have hkn : k < goMin domChunks.length 16 := lt_of_lt_of_le hk (min_le_left _ _)
    rw [Nat.zero_add, getD_take_of_lt hkn]
    exact hok k (by rwa [goMin_eq_min] at hkn)
  have hinv := invokeChunks_ok env instr r (domChunks.take (goMin domChunks.length 16)) 0 hok'
  refine ⟨?_, ?_, ?_⟩
  · simp only [parseWithGenAI, if_neg hkey, hclient]
    rw [hinv]
  · rw [hinv]
  · have hjlen : j < (domChunks.take (goMin domChunks.length 16)).length := by
      simp only [List.length_take]
      rw [goMin_eq_min]
      omega
    rw [okResults_getD r _ 0 j hjlen, Nat.zero_add]
    exact extractText_eq_empty (r j) hempty

/-- Witness for C8: both chunks answer with responses carrying no textual
parts; the run succeeds and chunk 1's per-chunk result is empty. -/
theorem claim_C8_witness :
    (parseWithGenAI envEmptyResp ["c1", "c2"] "instr").2.2 = none ∧
    (invokeChunks envEmptyResp "instr"
        ((["c1", "c2"] : List String).take (goMin (["c1", "c2"] : List String).length 16)) 0).2
      = Except.ok (okResults respEmptyFun 0
          ((["c1", "c2"] : List String).take (goMin (["c1", "c2"] : List String).length 16))) ∧
    (okResults respEmptyFun 0
        ((["c1", "c2"] : List String).take
          (goMin (["c1", "c2"] : List String).length 16))).getD 1 "" = "" :=
  claim_C8 envEmptyResp ["c1", "c2"] "instr" respEmptyFun 1 (by decide) rfl
    (fun _ _ => rfl) (by decide) (by decide)

/-- Counterexample to claim C2 as stated: in the three-chunk scenario
where the response for chunk `i` is exactly one text part `"OK-i"`, the
aggregate is NOT `"OK-1\nOK-2\nOK-3"` — the source terminates every part
with a newline instead of joining parts with newline separators. -/
theorem claim_C2_counterexample :
    ¬ (parseWithGenAI envC2 ["a", "b", "c"] "instr").2.1 = "OK-1\nOK-2\nOK-3" := by
  decide

/-- Claim C2 as amended: each per-chunk result is the response's text
parts each TERMINATED by a newline (a `"\n"` is appended after every
part), and the aggregate joins the per-chunk results with a single
newline separator in batch order, giving `"OK-1\n\nOK-2\n\nOK-3\n"` in
the three-chunk scenario. -/
theorem claim_C2_amended_thm :
    parseWithGenAI envC2 ["a", "b", "c"] "instr"
      = (["a", "b", "c"], "OK-1\n\nOK-2\n\nOK-3\n", none) := by
  decide

end Scraper
